import Mathlib

/-!
Verification of the bingo document-collection layer.

The Go source is shallowly embedded: a bbolt bucket is a list of
key/value pairs sorted in ascending key order; the cursor adapter
ReverseIter visits it in reverse (descending keys); the pluggable
jsoniter codec is an abstract decode function `V → Option D` and an
encode function `D → Except BErr V`; Go `int` counters become `Int`.
Stateful functions take and return the bucket (or the whole optional
bucket, `none` modelling a bucket that does not exist in the store).
-/

namespace Bingo

/-- Byte-string keys of the underlying store. -/
abbrev Key := List Nat

/-- A bbolt bucket: entries sorted ascending by key (keys unique). -/
abbrev Bucket (V : Type) := List (Key × V)

/-- The error values the embedded code distinguishes.  `stop` is the
`stoperr` sentinel of collection.go; hook, validation and marshal errors
carry a caller-chosen code. -/
inductive BErr where
  | documentExists
  | documentNotFound
  | bucketNotFound
  | decodeFailed
  | stop
  | validationFailed (n : Nat)
  | hookFailed (n : Nat)
  | marshalFailed (n : Nat)
deriving DecidableEq, Repr

/-- `bucket.Get k`: point lookup. -/
def bget {V : Type} : Bucket V → Key → Option V
  | [], _ => none
  | (k', v) :: rest, k => if k = k' then some v else bget rest k

/-- bbolt's byte-wise key order (`bytes.Compare < 0`). -/
def keyLt : Key → Key → Bool
  | [], [] => false
  | [], _ :: _ => true
  | _ :: _, [] => false
  | a :: as, b :: bs => a < b || (a = b && keyLt as bs)

/-- `bucket.Put k v`: replace the value under `k` or insert `k` at its
sorted position. -/
def bput {V : Type} : Bucket V → Key → V → Bucket V
  | [], k, v => [(k, v)]
  | (k', v') :: rest, k, v =>
    if k = k' then (k, v) :: rest
    else if keyLt k k' then (k, v) :: (k', v') :: rest
    else (k', v') :: bput rest k v

/-- `bucket.Delete k`: remove the entry under `k` (no-op when absent). -/
def bdelete {V : Type} (b : Bucket V) (k : Key) : Bucket V :=
  b.filter (fun kv => kv.1 ≠ k)

/-- The predicate-scan part of the `Query` descriptor (query.go):
filter function, skip and count, Go ints. -/
structure Query (D : Type) where
  filter : D → Bool
  skip : Int
  count : Int

/-- The body of `queryFind`'s ReverseIter loop (collection.go:556-575),
run over the remaining visit sequence.  `found` is `currentFound`,
`last` the visit counter; on an inner-callback error ReverseIter stops
and the error is returned together with the state accumulated so far.
Matched documents are appended together with their keys (the two
parallel `append`s of the source become one list of pairs). -/
def scanLoop {D V : Type} (dec : V → Option D) (q : Query D) :
    Int → Int → List (Key × V) → List (D × Key) × Int × Option BErr
  | _, last, [] => ([], last, none)
  | found, last, (k, v) :: rest =>
    if last + 1 ≤ q.skip then
      scanLoop dec q found (last + 1) rest
    else
      match dec v with
      | none => ([], last + 1, some BErr.decodeFailed)
      | some d =>
        if q.filter d then
          if 0 < q.count ∧ q.count ≤ found + 1 then
            ([(d, k)], last + 1, some BErr.stop)
          else
            let r := scanLoop dec q (found + 1) (last + 1) rest
            ((d, k) :: r.1, r.2)
        else
          scanLoop dec q found (last + 1) rest

/-- `queryFind` (collection.go:545-582): missing bucket surfaces
`bucketNotFound`; otherwise the bucket is traversed in descending key
order (`entries.reverse`) by `scanLoop`; the `stoperr` sentinel is
translated to a nil error, every other error is surfaced. -/
def queryFind {D V : Type} (dec : V → Option D) (q : Query D)
    (db : Option (Bucket V)) : List (D × Key) × Int × Option BErr :=
  match db with
  | none => ([], 0, some BErr.bucketNotFound)
  | some entries =>
    let r := scanLoop dec q 0 0 entries.reverse
    (r.1, r.2.1, if r.2.2 = some BErr.stop then none else r.2.2)

/-- `queryKeys` (collection.go:521-543): point lookups; a missing
bucket makes the View closure fail but the error is discarded (`_ =`),
leaving the empty list; absent keys and values that fail to decode are
skipped with `continue`. -/
def queryKeysGo {D V : Type} (dec : V → Option D)
    (db : Option (Bucket V)) (keys : List Key) : List D :=
  match db with
  | none => []
  | some b => keys.filterMap (fun k => (bget b k).bind dec)

/-- Specification helper: the matched (document, key) pairs of a visit
sequence, i.e. entries that decode and satisfy the filter. -/
def matchesOf {D V : Type} (dec : V → Option D) (f : D → Bool)
    (l : List (Key × V)) : List (D × Key) :=
  l.filterMap (fun kv =>
    match dec kv.2 with
    | some d => if f d then some (d, kv.1) else none
    | none => none)

/-- Every stored value of the sequence decodes. -/
def decodesAll {D V : Type} (dec : V → Option D) (l : List (Key × V)) : Prop :=
  ∀ kv ∈ l, (dec kv.2).isSome

instance {D V : Type} (dec : V → Option D) (l : List (Key × V)) :
    Decidable (decodesAll dec l) := by
  unfold decodesAll
  infer_instance

/-- Specification helper: number of records a bounded scan visits until
(and including) its `n`-th match. -/
def stopAt {D V : Type} (dec : V → Option D) (f : D → Bool) :
    Nat → List (Key × V) → Nat
  | _, [] => 0
  | n, kv :: rest =>
    match dec kv.2 with
    | none => 1
    | some d =>
      if f d then (if n ≤ 1 then 1 else 1 + stopAt dec f (n - 1) rest)
      else 1 + stopAt dec f n rest

theorem decodesAll_sub {D V : Type} {dec : V → Option D}
    {l l' : List (Key × V)} (h : l'.Sublist l) (hd : decodesAll dec l) :
    decodesAll dec l' :=
  fun kv hkv => hd kv (h.mem hkv)

theorem matchesOf_append {D V : Type} (dec : V → Option D) (f : D → Bool)
    (l₁ l₂ : List (Key × V)) :
    matchesOf dec f (l₁ ++ l₂) = matchesOf dec f l₁ ++ matchesOf dec f l₂ := by
  simp [matchesOf]

/-- Once the visit counter has passed the skip threshold, an unbounded
scan returns every match of the remaining sequence and its counter
advances by the sequence length. -/
theorem scanLoop_unbounded {D V : Type} (dec : V → Option D) (q : Query D)
    (hc : q.count ≤ 0) (l : List (Key × V)) :
    ∀ (found last : Int), q.skip ≤ last → decodesAll dec l →
      scanLoop dec q found last l = (matchesOf dec q.filter l, last + l.length, none) := by
  induction l with
  | nil => intro found last _ _; simp [scanLoop, matchesOf]
  | cons kv rest ih =>
    intro found last hlast hdec
    obtain ⟨k, v⟩ := kv
    have hskip : ¬ (last + 1 ≤ q.skip) := by omega
    have hv : (dec v).isSome := hdec (k, v) (by simp)
    obtain ⟨d, hd⟩ := Option.isSome_iff_exists.mp hv
    have hrest : decodesAll dec rest := fun kv hkv => hdec kv (by simp [hkv])
    by_cases hf : q.filter d
    · have hstop : ¬ (0 < q.count ∧ q.count ≤ found + 1) := by omega
      simp only [scanLoop, if_neg hskip, hd, if_pos hf, if_neg hstop]
      rw [ih (found + 1) (last + 1) (by omega) hrest]
      simp only [matchesOf, List.filterMap_cons, hd, if_pos hf]
      refine Prod.ext rfl (Prod.ext ?_ rfl)
      simp only [List.length_cons]
      push_cast
      ring
    · simp only [scanLoop, if_neg hskip, hd, if_neg hf]
      rw [ih found (last + 1) (by omega) hrest]
      simp only [matchesOf, List.filterMap_cons, hd, if_neg hf]
      refine Prod.ext rfl (Prod.ext ?_ rfl)
      simp only [List.length_cons]
      push_cast
      ring

/-- A bounded scan (count positive), past the skip threshold: if fewer
matches remain than requested it behaves like the unbounded scan,
otherwise it returns exactly the requested number of matches and stops
with the sentinel at the visit of the last returned match. -/
theorem scanLoop_bounded {D V : Type} (dec : V → Option D) (q : Query D)
    (hc : 0 < q.count) (l : List (Key × V)) :
    ∀ (found last : Int), q.skip ≤ last → found < q.count → decodesAll dec l →
      scanLoop dec q found last l =
        if ((matchesOf dec q.filter l).length : Int) < q.count - found then
          (matchesOf dec q.filter l, last + l.length, none)
        else
          ((matchesOf dec q.filter l).take (q.count - found).toNat,
           last + stopAt dec q.filter (q.count - found).toNat l, some BErr.stop) := by
  induction l with
  | nil =>
    intro found last _ hfound _
    have h : ((matchesOf dec q.filter ([] : List (Key × V))).length : Int) <
        q.count - found := by
      simp [matchesOf]
      omega
    rw [if_pos h]
    simp [scanLoop, matchesOf]
  | cons kv rest ih =>
    intro found last hlast hfound hdec
    obtain ⟨k, v⟩ := kv
    have hskip : ¬ (last + 1 ≤ q.skip) := by omega
    have hv : (dec v).isSome := hdec (k, v) (by simp)
    obtain ⟨d, hd⟩ := Option.isSome_iff_exists.mp hv
    have hrest : decodesAll dec rest := fun kv hkv => hdec kv (by simp [hkv])
    by_cases hf : q.filter d
    · have hmc : matchesOf dec q.filter ((k, v) :: rest) =
          (d, k) :: matchesOf dec q.filter rest := by
        simp [matchesOf, List.filterMap_cons, hd, hf]
      by_cases hstop : q.count ≤ found + 1
      · have hneed : (q.count - found).toNat = 1 := by omega
        simp only [scanLoop, if_neg hskip, hd, if_pos hf,
          if_pos (And.intro hc hstop)]
        have hcond : ¬ (((matchesOf dec q.filter ((k, v) :: rest)).length : Int) <
            q.count - found) := by
          rw [hmc]
          simp only [List.length_cons]
          omega
        rw [if_neg hcond, hmc, hneed]
        simp [stopAt, hd, hf]
      · have hnstop : ¬ (0 < q.count ∧ q.count ≤ found + 1) := by omega
        simp only [scanLoop, if_neg hskip, hd, if_pos hf, if_neg hnstop]
        rw [ih (found + 1) (last + 1) (by omega) (by omega) hrest]
        have hstopAt : stopAt dec q.filter (q.count - found).toNat ((k, v) :: rest) =
            1 + stopAt dec q.filter ((q.count - found).toNat - 1) rest := by
          have h1 : ¬ ((q.count - found).toNat ≤ 1) := by omega
          simp only [stopAt, hd, if_pos hf, if_neg h1]
        by_cases hlt : ((matchesOf dec q.filter rest).length : Int) < q.count - (found + 1)
        · have hcond : ((matchesOf dec q.filter ((k, v) :: rest)).length : Int) <
              q.count - found := by
            rw [hmc]
            simp only [List.length_cons]
            omega
          rw [if_pos hlt, if_pos hcond, hmc]
          refine Prod.ext rfl (Prod.ext ?_ rfl)
          simp only [List.length_cons]
          push_cast
          ring
        · have hcond : ¬ (((matchesOf dec q.filter ((k, v) :: rest)).length : Int) <
              q.count - found) := by
            rw [hmc]
            simp only [List.length_cons]
            omega
          obtain ⟨m, hm2⟩ : ∃ m, (q.count - found).toNat = m + 1 :=
            ⟨(q.count - found).toNat - 1, by omega⟩
          have hsub : (q.count - (found + 1)).toNat = m := by omega
          have hstopAt2 : stopAt dec q.filter (m + 1) ((k, v) :: rest) =
              1 + stopAt dec q.filter m rest := by
            have h1 : ¬ (m + 1 ≤ 1) := by omega
            simp only [stopAt, hd, if_pos hf, if_neg h1, Nat.add_sub_cancel]
          rw [if_neg hlt, if_neg hcond, hmc, hm2, hsub, hstopAt2, List.take_succ_cons]
          refine Prod.ext rfl (Prod.ext ?_ rfl)
          push_cast
          ring
    · have hmc : matchesOf dec q.filter ((k, v) :: rest) =
          matchesOf dec q.filter rest := by
        simp [matchesOf, List.filterMap_cons, hd, hf]
      simp only [scanLoop, if_neg hskip, hd, if_neg hf]
      rw [ih found (last + 1) (by omega) hfound hrest]
      have hstopAt : stopAt dec q.filter (q.count - found).toNat ((k, v) :: rest) =
          1 + stopAt dec q.filter (q.count - found).toNat rest := by
        simp only [stopAt, hd, if_neg hf]
      by_cases hlt : ((matchesOf dec q.filter rest).length : Int) < q.count - found
      · have hcond : ((matchesOf dec q.filter ((k, v) :: rest)).length : Int) <
            q.count - found := by
          rw [hmc]; omega
        rw [if_pos hlt, if_pos hcond, hmc]
        refine Prod.ext rfl (Prod.ext ?_ rfl)
        simp only [List.length_cons]
        push_cast
        ring
      · have hcond : ¬ (((matchesOf dec q.filter ((k, v) :: rest)).length : Int) <
            q.count - found) := by
          rw [hmc]; omega
        rw [if_neg hlt, if_neg hcond, hmc, hstopAt]
        refine Prod.ext rfl (Prod.ext ?_ rfl)
        push_cast
        ring

/-- The skip phase: a scan started below the skip threshold first
discards records, one visit each, until the threshold or the end of the
sequence is reached. -/
theorem scanLoop_skipPhase {D V : Type} (dec : V → Option D) (q : Query D)
    (l : List (Key × V)) :
    ∀ (found last : Int), 0 ≤ last →
      scanLoop dec q found last l =
        scanLoop dec q found (last + min (q.skip - last).toNat l.length)
          (l.drop (min (q.skip - last).toNat l.length)) := by
  induction l with
  | nil => intro found last _; simp
  | cons kv rest ih =>
    intro found last hlast
    obtain ⟨k, v⟩ := kv
    by_cases hskip : last + 1 ≤ q.skip
    · have h1 : (q.skip - last).toNat = ((q.skip - (last + 1)).toNat) + 1 := by omega
      have h2 : min ((q.skip - (last + 1)).toNat + 1) ((k, v) :: rest).length =
          min (q.skip - (last + 1)).toNat rest.length + 1 := by
        simp only [List.length_cons]
        omega
      conv_lhs => simp only [scanLoop, if_pos hskip]
      rw [ih found (last + 1) (by omega), h1, h2]
      have h3 : ((k, v) :: rest).drop (min (q.skip - (last + 1)).toNat rest.length + 1) =
          rest.drop (min (q.skip - (last + 1)).toNat rest.length) := by
        simp [List.drop_succ_cons]
      rw [h3]
      refine congrArg₂ _ ?_ rfl
      omega
    · have h0 : (q.skip - last).toNat = 0 := by omega
      simp [h0]

/-- With unbounded count, the first record past the skip threshold whose
value fails to decode aborts the traversal: the scan returns the matches
gathered before it, the counter includes its visit, and the decode error
escapes. -/
theorem scanLoop_decode_abort {D V : Type} (dec : V → Option D) (q : Query D)
    (hc : q.count ≤ 0) (good : List (Key × V)) :
    ∀ (bad : Key × V) (rest : List (Key × V)) (found last : Int),
      q.skip ≤ last → decodesAll dec good → dec bad.2 = none →
      scanLoop dec q found last (good ++ bad :: rest) =
        (matchesOf dec q.filter good, last + good.length + 1, some BErr.decodeFailed) := by
  induction good with
  | nil =>
    intro bad rest found last hlast _ hbad
    obtain ⟨bk, bv⟩ := bad
    have hskip : ¬ (last + 1 ≤ q.skip) := by omega
    simp only [List.nil_append, scanLoop, if_neg hskip, hbad]
    simp [matchesOf]
  | cons kv good ih =>
    intro bad rest found last hlast hdec hbad
    obtain ⟨k, v⟩ := kv
    have hskip : ¬ (last + 1 ≤ q.skip) := by omega
    have hv : (dec v).isSome := hdec (k, v) (by simp)
    obtain ⟨d, hd⟩ := Option.isSome_iff_exists.mp hv
    have hrest : decodesAll dec good := fun kv hkv => hdec kv (by simp [hkv])
    by_cases hf : q.filter d
    · have hstop : ¬ (0 < q.count ∧ q.count ≤ found + 1) := by omega
      simp only [List.cons_append, scanLoop, if_neg hskip, hd, if_pos hf,
        if_neg hstop, List.append_eq]
      rw [ih bad rest (found + 1) (last + 1) (by omega) hrest hbad]
      simp only [matchesOf, List.filterMap_cons, hd, if_pos hf]
      refine Prod.ext rfl (Prod.ext ?_ rfl)
      simp only [List.length_cons]
      push_cast
      ring
    · simp only [List.cons_append, scanLoop, if_neg hskip, hd, if_neg hf,
        List.append_eq]
      rw [ih bad rest found (last + 1) (by omega) hrest hbad]
      simp only [matchesOf, List.filterMap_cons, hd, if_neg hf]
      refine Prod.ext rfl (Prod.ext ?_ rfl)
      simp only [List.length_cons]
      push_cast
      ring

theorem stopAt_le_length {D V : Type} (dec : V → Option D) (f : D → Bool) :
    ∀ (n : Nat) (l : List (Key × V)), stopAt dec f n l ≤ l.length := by
  intro n l
  induction l generalizing n with
  | nil => simp [stopAt]
  | cons kv rest ih =>
    cases hd : dec kv.2 with
    | none => simp [stopAt, hd]
    | some d =>
      by_cases hf : f d
      · by_cases h1 : n ≤ 1
        · simp [stopAt, hd, hf, h1]
        · have h := ih (n - 1)
          simp only [stopAt, hd, if_pos hf, if_neg h1, List.length_cons]
          omega
      · have h := ih n
        simp only [stopAt, hd, if_neg hf, List.length_cons]
        omega

/-- Cutting the visit sequence right where the bounded scan stops leaves
exactly the matches after the `n`-th. -/
theorem matchesOf_drop_stopAt {D V : Type} (dec : V → Option D) (f : D → Bool) :
    ∀ (n : Nat) (l : List (Key × V)), 1 ≤ n → n ≤ (matchesOf dec f l).length →
      decodesAll dec l →
      matchesOf dec f (l.drop (stopAt dec f n l)) = (matchesOf dec f l).drop n := by
  intro n l
  induction l generalizing n with
  | nil => intro h1 h2 _; simp [matchesOf] at h2; omega
  | cons kv rest ih =>
    intro h1 h2 hdec
    obtain ⟨k, v⟩ := kv
    have hv : (dec v).isSome := hdec (k, v) (by simp)
    obtain ⟨d, hd⟩ := Option.isSome_iff_exists.mp hv
    have hrest : decodesAll dec rest := fun kv hkv => hdec kv (by simp [hkv])
    by_cases hf : f d
    · have hmc : matchesOf dec f ((k, v) :: rest) = (d, k) :: matchesOf dec f rest := by
        simp [matchesOf, List.filterMap_cons, hd, hf]
      by_cases h1' : n ≤ 1
      · have hn1 : n = 1 := by omega
        simp only [stopAt, hd, if_pos hf, if_pos h1', hmc, hn1]
        simp
      · simp only [stopAt, hd, if_pos hf, if_neg h1']
        have hdrop : ((k, v) :: rest).drop (1 + stopAt dec f (n - 1) rest) =
            rest.drop (stopAt dec f (n - 1) rest) := by
          have : 1 + stopAt dec f (n - 1) rest = (stopAt dec f (n - 1) rest) + 1 := by omega
          rw [this, List.drop_succ_cons]
        rw [hdrop, ih (n - 1) (by omega) (by rw [hmc] at h2; simp at h2; omega) hrest]
        rw [hmc]
        have h3 : n = (n - 1) + 1 := by omega
        rw [h3, List.drop_succ_cons]
        simp
    · have hmc : matchesOf dec f ((k, v) :: rest) = matchesOf dec f rest := by
        simp [matchesOf, List.filterMap_cons, hd, hf]
      simp only [stopAt, hd, if_neg hf]
      have hdrop : ((k, v) :: rest).drop (1 + stopAt dec f n rest) =
          rest.drop (stopAt dec f n rest) := by
        have : 1 + stopAt dec f n rest = (stopAt dec f n rest) + 1 := by omega
        rw [this, List.drop_succ_cons]
      rw [hdrop, ih n h1 (by rw [hmc] at h2; omega) hrest, hmc]

/-- Master characterization of `queryFind` on an existing bucket: with a
non-negative skip and all post-skip values decoding, the scan returns
the post-skip matches (truncated to `count` when positive), never an
error, and a cursor equal to the number of records visited: the whole
bucket, except that a satisfied positive count stops at the visit of
the last returned match. -/
theorem queryFind_char {D V : Type} (dec : V → Option D) (q : Query D)
    (entries : Bucket V) (hs : 0 ≤ q.skip)
    (hdec : decodesAll dec (entries.reverse.drop q.skip.toNat)) :
    queryFind dec q (some entries) =
      ((if 0 < q.count
          then (matchesOf dec q.filter (entries.reverse.drop q.skip.toNat)).take q.count.toNat
          else matchesOf dec q.filter (entries.reverse.drop q.skip.toNat)),
       (if 0 < q.count ∧ (q.count : Int) ≤
            ((matchesOf dec q.filter (entries.reverse.drop q.skip.toNat)).length : Int)
          then ((min q.skip.toNat entries.length : Nat) : Int) +
            (stopAt dec q.filter q.count.toNat (entries.reverse.drop q.skip.toNat) : Int)
          else (entries.length : Int)),
       none) := by
  have hlen : entries.reverse.length = entries.length := List.length_reverse entries
  have hwrap : queryFind dec q (some entries) =
      ((scanLoop dec q 0 0 entries.reverse).1,
       (scanLoop dec q 0 0 entries.reverse).2.1,
       if (scanLoop dec q 0 0 entries.reverse).2.2 = some BErr.stop then none
       else (scanLoop dec q 0 0 entries.reverse).2.2) := rfl
  rw [hwrap, scanLoop_skipPhase dec q entries.reverse 0 0 le_rfl]
  have hsub0 : q.skip - 0 = q.skip := by omega
  rw [hsub0]
  by_cases hA : entries.reverse.length ≤ q.skip.toNat
  · -- the whole bucket is skipped (this covers the empty bucket)
    have hj : min q.skip.toNat entries.reverse.length = entries.reverse.length :=
      min_eq_right hA
    have hnil : entries.reverse.drop q.skip.toNat = [] := List.drop_eq_nil_of_le hA
    rw [hj, List.drop_length, hnil]
    have hcnd : ¬ (0 < q.count ∧ (q.count : Int) ≤
        ((matchesOf dec q.filter ([] : List (Key × V))).length : Int)) := by
      simp [matchesOf]
    rw [if_neg hcnd]
    simp only [scanLoop, matchesOf, List.filterMap_nil]
    refine Prod.ext ?_ (Prod.ext ?_ ?_)
    · simp
    · simp only
      rw [hlen]
      omega
    · simp
  · have hB : q.skip.toNat ≤ entries.reverse.length := by omega
    have hj : min q.skip.toNat entries.reverse.length = q.skip.toNat := min_eq_left hB
    rw [hj]
    have hjint : ((q.skip.toNat : Nat) : Int) = q.skip := Int.toNat_of_nonneg hs
    have hskiple : q.skip ≤ 0 + (q.skip.toNat : Int) := by omega
    have htaillen : (entries.reverse.drop q.skip.toNat).length =
        entries.length - q.skip.toNat := by
      rw [List.length_drop, hlen]
    by_cases hc : 0 < q.count
    · rw [scanLoop_bounded dec q hc (entries.reverse.drop q.skip.toNat) 0
        (0 + (q.skip.toNat : Int)) hskiple (by omega) hdec]
      have hc0 : q.count - 0 = q.count := by omega
      rw [hc0]
      by_cases hm : ((matchesOf dec q.filter (entries.reverse.drop q.skip.toNat)).length : Int) <
          q.count
      · rw [if_pos hm]
        have hTk : (matchesOf dec q.filter (entries.reverse.drop q.skip.toNat)).take
            q.count.toNat = matchesOf dec q.filter (entries.reverse.drop q.skip.toNat) :=
          List.take_of_length_le (by omega)
        have hcnd : ¬ (0 < q.count ∧ (q.count : Int) ≤
            ((matchesOf dec q.filter (entries.reverse.drop q.skip.toNat)).length : Int)) := by
          omega
        rw [if_pos hc, if_neg hcnd, hTk]
        refine Prod.ext ?_ (Prod.ext ?_ ?_)
        · simp
        · simp only
          rw [htaillen]
          omega
        · simp
      · rw [if_neg hm]
        have hcnd : 0 < q.count ∧ (q.count : Int) ≤
            ((matchesOf dec q.filter (entries.reverse.drop q.skip.toNat)).length : Int) := by
          omega
        rw [if_pos hc, if_pos hcnd]
        have hjmin : min q.skip.toNat entries.length = q.skip.toNat := by
          rw [hlen] at hB
          exact min_eq_left hB
        rw [hjmin]
        refine Prod.ext ?_ (Prod.ext ?_ ?_)
        · simp
        · simp only
          omega
        · simp
    · rw [scanLoop_unbounded dec q (by omega) (entries.reverse.drop q.skip.toNat) 0
        (0 + (q.skip.toNat : Int)) hskiple hdec]
      have hcnd : ¬ (0 < q.count ∧ (q.count : Int) ≤
          ((matchesOf dec q.filter (entries.reverse.drop q.skip.toNat)).length : Int)) := by
        omega
      rw [if_neg hc, if_neg hcnd]
      refine Prod.ext ?_ (Prod.ext ?_ ?_)
      · simp
      · simp only
        rw [htaillen]
        omega
      · simp

/-- C1: for a predicate scan over an existing bucket with skip `s ≥ 0`,
the scan never reports an error; with unbounded count it returns exactly
the matches among the records visited after the first `s` (so skip
discards the first `s` records visited, not the first `s` matches -
only post-skip records need to decode at all) and the cursor equals the
number of records visited, the bucket size; an empty bucket yields
cursor 0, and a skip at least the bucket size yields an empty result
with cursor equal to the bucket size; the cursor always lies between 0
and the bucket size. -/
theorem queryFind_skip_visit_semantics {D V : Type} (dec : V → Option D)
    (filter : D → Bool) (s c : Int) (entries : Bucket V)
    (hs : 0 ≤ s) (hdec : decodesAll dec (entries.reverse.drop s.toNat)) :
    ((queryFind dec ⟨filter, s, c⟩ (some entries)).2.2 = none) ∧
    (c ≤ 0 → queryFind dec ⟨filter, s, c⟩ (some entries) =
      (matchesOf dec filter (entries.reverse.drop s.toNat), (entries.length : Int), none)) ∧
    (entries = [] → queryFind dec ⟨filter, s, c⟩ (some entries) = ([], 0, none)) ∧
    ((entries.length : Int) ≤ s → queryFind dec ⟨filter, s, c⟩ (some entries) =
      ([], (entries.length : Int), none)) ∧
    (0 ≤ (queryFind dec ⟨filter, s, c⟩ (some entries)).2.1 ∧
      (queryFind dec ⟨filter, s, c⟩ (some entries)).2.1 ≤ (entries.length : Int)) := by
  rw [queryFind_char dec ⟨filter, s, c⟩ entries hs hdec]
  simp only
  have hstop := stopAt_le_length dec filter c.toNat (entries.reverse.drop s.toNat)
  have htlen : (entries.reverse.drop s.toNat).length = entries.length - s.toNat := by
    rw [List.length_drop, List.length_reverse]
  refine ⟨?_, ?_, ?_, ?_, ?_⟩
  · trivial
  · intro hc
    have h1 : ¬ (0 < c) := by omega
    have h2 : ¬ (0 < c ∧ (c : Int) ≤
        ((matchesOf dec filter (entries.reverse.drop s.toNat)).length : Int)) := by
      omega
    rw [if_neg h1, if_neg h2]
  · intro he
    subst he
    simp [matchesOf]
  · intro hle
    have hnil : entries.reverse.drop s.toNat = [] := by
      refine List.drop_eq_nil_of_le ?_
      rw [List.length_reverse]
      omega
    rw [hnil]
    have h2 : ¬ (0 < c ∧ (c : Int) ≤
        ((matchesOf dec filter ([] : List (Key × V))).length : Int)) := by
      simp [matchesOf]
    rw [if_neg h2]
    simp [matchesOf]
  · split
    · rename_i h
      constructor
      · positivity
      · push_cast
        omega
    · omega

/-- Witness for C1 at a concrete bucket: three records, skip 1,
unbounded count; the two post-skip visits are tested, one matches, and
the cursor is the bucket size 3. -/
theorem queryFind_skip_visit_semantics_witness :
    queryFind (fun (v : Nat) => some v) ⟨fun d => d % 2 == 0, 1, 0⟩
      (some [([0], 4), ([1], 1), ([2], 2)]) = ([(4, [0])], 3, none) :=
  (queryFind_skip_visit_semantics (fun (v : Nat) => some v) (fun d => d % 2 == 0)
    1 0 [([0], 4), ([1], 1), ([2], 2)] (by decide) (by decide)).2.1 (by decide)

/-- C2: with count `c ≤ 0` the scan is unbounded and returns every
post-skip match (even when there are none: a zero count does not stop
at zero matches); with `c = m > 0` it returns the first `m` post-skip
matches, hence at most `m` records, and the sentinel stop signal is not
surfaced: the error component is `none`. -/
theorem queryFind_count_semantics {D V : Type} (dec : V → Option D)
    (filter : D → Bool) (s c : Int) (entries : Bucket V)
    (hs : 0 ≤ s) (hdec : decodesAll dec (entries.reverse.drop s.toNat)) :
    (c ≤ 0 → queryFind dec ⟨filter, s, c⟩ (some entries) =
      (matchesOf dec filter (entries.reverse.drop s.toNat), (entries.length : Int), none)) ∧
    (0 < c →
      (queryFind dec ⟨filter, s, c⟩ (some entries)).1 =
        (matchesOf dec filter (entries.reverse.drop s.toNat)).take c.toNat ∧
      (queryFind dec ⟨filter, s, c⟩ (some entries)).1.length ≤ c.toNat ∧
      (queryFind dec ⟨filter, s, c⟩ (some entries)).2.2 = none) := by
  rw [queryFind_char dec ⟨filter, s, c⟩ entries hs hdec]
  simp only
  constructor
  · intro hc
    have h1 : ¬ (0 < c) := by omega
    have h2 : ¬ (0 < c ∧ (c : Int) ≤
        ((matchesOf dec filter (entries.reverse.drop s.toNat)).length : Int)) := by
      omega
    rw [if_neg h1, if_neg h2]
  · intro hc
    rw [if_pos hc]
    refine ⟨rfl, ?_, ?_⟩
    · rw [List.length_take]
      omega
    · trivial

/-- Witness for C2 at a concrete bucket: count 1 returns only the first
match in descending order, with a nil error despite the sentinel stop. -/
theorem queryFind_count_semantics_witness :
    (queryFind (fun (v : Nat) => some v) ⟨fun d => d % 2 == 0, 0, 1⟩
      (some [([0], 4), ([1], 1), ([2], 2)])).1 = [(2, [2])] :=
  ((queryFind_count_semantics (fun (v : Nat) => some v) (fun d => d % 2 == 0)
    0 1 [([0], 4), ([1], 1), ([2], 2)] (by decide) (by decide)).2 (by decide)).1

theorem take_length_take {α : Type} (l : List α) (n : Nat) :
    l.take ((l.take n).length) = l.take n := by
  rw [List.length_take]
  rcases le_total n l.length with h | h
  · rw [min_eq_left h]
  · rw [min_eq_right h, List.take_length, List.take_of_length_le h]

/-- The keys of the matched records form a subsequence of the keys of
the visited records. -/
theorem matchesOf_keys_sublist {D V : Type} (dec : V → Option D) (f : D → Bool)
    (l : List (Key × V)) :
    List.Sublist ((matchesOf dec f l).map Prod.snd) (l.map Prod.fst) := by
  induction l with
  | nil => simp [matchesOf]
  | cons kv rest ih =>
    cases hd : dec kv.2 with
    | none =>
      simp only [matchesOf, List.filterMap_cons, hd, List.map_cons]
      exact ih.cons kv.1
    | some d =>
      by_cases hf : f d
      · simp only [matchesOf, List.filterMap_cons, hd, if_pos hf, List.map_cons]
        exact ih.cons₂ kv.1
      · simp only [matchesOf, List.filterMap_cons, hd, if_neg hf, List.map_cons]
        exact ih.cons kv.1

/-- C3: over a fixed bucket and predicate, a second scan whose skip is
the first scan's returned cursor yields the next page: the two result
lists concatenate to an initial segment of the post-skip match sequence
(no overlap and no gap), and when the bucket keys are distinct no key
occurs twice across the two pages. -/
theorem queryFind_pagination_pages {D V : Type} (dec : V → Option D)
    (filter : D → Bool) (k n : Int) (entries : Bucket V)
    (hk : 0 ≤ k) (hdec : decodesAll dec entries.reverse) :
    ((queryFind dec ⟨filter, k, n⟩ (some entries)).1 ++
      (queryFind dec
        ⟨filter, (queryFind dec ⟨filter, k, n⟩ (some entries)).2.1, n⟩
        (some entries)).1 =
      (matchesOf dec filter (entries.reverse.drop k.toNat)).take
        ((queryFind dec ⟨filter, k, n⟩ (some entries)).1.length +
         (queryFind dec
           ⟨filter, (queryFind dec ⟨filter, k, n⟩ (some entries)).2.1, n⟩
           (some entries)).1.length)) ∧
    ((entries.map Prod.fst).Nodup →
      (((queryFind dec ⟨filter, k, n⟩ (some entries)).1 ++
        (queryFind dec
          ⟨filter, (queryFind dec ⟨filter, k, n⟩ (some entries)).2.1, n⟩
          (some entries)).1).map Prod.snd).Nodup) := by
  have hdec1 : decodesAll dec (entries.reverse.drop k.toNat) :=
    decodesAll_sub (List.drop_sublist _ _) hdec
  have hmain : (queryFind dec ⟨filter, k, n⟩ (some entries)).1 ++
      (queryFind dec
        ⟨filter, (queryFind dec ⟨filter, k, n⟩ (some entries)).2.1, n⟩
        (some entries)).1 =
      (matchesOf dec filter (entries.reverse.drop k.toNat)).take
        ((queryFind dec ⟨filter, k, n⟩ (some entries)).1.length +
         (queryFind dec
           ⟨filter, (queryFind dec ⟨filter, k, n⟩ (some entries)).2.1, n⟩
           (some entries)).1.length) := by
    rw [queryFind_char dec ⟨filter, k, n⟩ entries hk hdec1]
    simp only
    by_cases hY : 0 < n ∧ (n : Int) ≤
        ((matchesOf dec filter (entries.reverse.drop k.toNat)).length : Int)
    · -- the first page is full: its cursor sits at its last match
      obtain ⟨hc, hm⟩ := hY
      have hkle : k.toNat ≤ entries.length := by
        by_contra hgt
        have hnil : entries.reverse.drop k.toNat = [] := by
          refine List.drop_eq_nil_of_le ?_
          rw [List.length_reverse]
          omega
        rw [hnil] at hm
        simp [matchesOf] at hm
        omega
      have hjmin : min k.toNat entries.length = k.toNat := min_eq_left hkle
      rw [if_pos hc, if_pos (And.intro hc hm), hjmin]
      have hp := stopAt_le_length dec filter n.toNat (entries.reverse.drop k.toNat)
      have htlen : (entries.reverse.drop k.toNat).length = entries.length - k.toNat := by
        rw [List.length_drop, List.length_reverse]
      have hcur : ((k.toNat : Int) +
          (stopAt dec filter n.toNat (entries.reverse.drop k.toNat) : Int)).toNat =
          k.toNat + stopAt dec filter n.toNat (entries.reverse.drop k.toNat) := by
        omega
      have hs2 : (0 : Int) ≤ (k.toNat : Int) +
          (stopAt dec filter n.toNat (entries.reverse.drop k.toNat) : Int) := by
        omega
      have hdec2 : decodesAll dec (entries.reverse.drop
          ((k.toNat : Int) +
           (stopAt dec filter n.toNat (entries.reverse.drop k.toNat) : Int)).toNat) :=
        decodesAll_sub (List.drop_sublist _ _) hdec
      rw [queryFind_char dec ⟨filter, _, n⟩ entries hs2 hdec2]
      simp only
      rw [hcur]
      have hdd : entries.reverse.drop
          (k.toNat + stopAt dec filter n.toNat (entries.reverse.drop k.toNat)) =
          (entries.reverse.drop k.toNat).drop
            (stopAt dec filter n.toNat (entries.reverse.drop k.toNat)) := by
        rw [List.drop_drop]
      have hM2 : matchesOf dec filter
          ((entries.reverse.drop k.toNat).drop
            (stopAt dec filter n.toNat (entries.reverse.drop k.toNat))) =
          (matchesOf dec filter (entries.reverse.drop k.toNat)).drop n.toNat :=
        matchesOf_drop_stopAt dec filter n.toNat (entries.reverse.drop k.toNat)
          (by omega) (by omega) hdec1
      rw [hdd, hM2, if_pos hc]
      have hlen1 : ((matchesOf dec filter (entries.reverse.drop k.toNat)).take
          n.toNat).length = n.toNat := by
        rw [List.length_take]
        omega
      rw [hlen1, List.take_add]
      congr 1
      exact (take_length_take _ _).symm
    · -- the first page exhausted the bucket: its cursor is the bucket size
      rw [if_neg hY]
      have hnil2 : entries.reverse.drop ((entries.length : Int)).toNat = [] := by
        refine List.drop_eq_nil_of_le ?_
        rw [List.length_reverse]
        omega
      have hdec2 : decodesAll dec (entries.reverse.drop ((entries.length : Int)).toNat) :=
        decodesAll_sub (List.drop_sublist _ _) hdec
      rw [queryFind_char dec ⟨filter, (entries.length : Int), n⟩ entries (by simp) hdec2]
      simp only
      rw [hnil2]
      have hM1 : (if 0 < n
          then (matchesOf dec filter (entries.reverse.drop k.toNat)).take n.toNat
          else matchesOf dec filter (entries.reverse.drop k.toNat)) =
          matchesOf dec filter (entries.reverse.drop k.toNat) := by
        split
        · rename_i hc
          refine List.take_of_length_le ?_
          have : ¬ ((n : Int) ≤
              ((matchesOf dec filter (entries.reverse.drop k.toNat)).length : Int)) := by
            tauto
          omega
        · rfl
      rw [hM1]
      simp [matchesOf, List.take_of_length_le]
  refine ⟨hmain, ?_⟩
  intro hnodup
  rw [hmain]
  refine List.Nodup.sublist ?_ (List.nodup_reverse.mpr hnodup)
  refine List.Sublist.trans (List.Sublist.map Prod.snd (List.take_sublist _ _)) ?_
  refine List.Sublist.trans (matchesOf_keys_sublist dec filter _) ?_
  rw [← List.map_reverse]
  exact List.Sublist.map Prod.fst (List.drop_sublist _ _)

/-- Concrete decoder for witnesses: every value decodes to itself. -/
def decNat : Nat → Option Nat := fun v => some v

/-- Concrete decoder for witnesses: the value 0 fails to decode. -/
def decPos : Nat → Option Nat := fun v => if v = 0 then none else some v

/-- Concrete predicate for witnesses: even documents match. -/
def filterEven : Nat → Bool := fun d => d % 2 == 0

/-- Concrete bucket for the pagination witness. -/
def entriesW : Bucket Nat := [([0], 2), ([1], 1), ([2], 4), ([3], 6)]

/-- Witness for C3: two scans of count 1 over a four-record bucket; the
second scan resumes at the first scan's cursor and the concatenated
pages form an initial segment of the match sequence. -/
theorem queryFind_pagination_pages_witness :
    (queryFind decNat ⟨filterEven, 0, 1⟩ (some entriesW)).1 ++
      (queryFind decNat
        ⟨filterEven, (queryFind decNat ⟨filterEven, 0, 1⟩ (some entriesW)).2.1, 1⟩
        (some entriesW)).1 =
      (matchesOf decNat filterEven (entriesW.reverse.drop (0 : Int).toNat)).take
        ((queryFind decNat ⟨filterEven, 0, 1⟩ (some entriesW)).1.length +
         (queryFind decNat
           ⟨filterEven, (queryFind decNat ⟨filterEven, 0, 1⟩ (some entriesW)).2.1, 1⟩
           (some entriesW)).1.length) :=
  (queryFind_pagination_pages decNat filterEven 0 1 entriesW (by decide)
    (by decide)).1

theorem bget_bdelete {V : Type} (b : Bucket V) (k k' : Key) :
    bget (bdelete b k) k' = if k' = k then none else bget b k' := by
  induction b with
  | nil =>
    simp only [bdelete, List.filter_nil, bget]
    split <;> rfl
  | cons kv rest ih =>
    obtain ⟨a, v⟩ := kv
    by_cases hak : a = k
    · subst hak
      have hf : bdelete ((a, v) :: rest) a = bdelete rest a := by
        simp [bdelete]
      rw [hf, ih]
      by_cases hk' : k' = a
      · subst hk'
        simp [bget]
      · simp [bget, hk']
    · have hf : bdelete ((a, v) :: rest) k = (a, v) :: bdelete rest k := by
        simp [bdelete, hak]
      rw [hf]
      by_cases hk' : k' = a
      · subst hk'
        simp [bget, hak]
      · simp only [bget, if_neg hk']
        rw [ih]

/-- C4: decode failures are asymmetric. A key whose stored bytes fail
to decode contributes nothing to a key lookup: `queryKeys` behaves
exactly as if the key were absent from the bucket (and by its shape the
lookup returns no error at all).  A predicate scan, in contrast, aborts
at the first post-skip record that fails to decode and surfaces the
decode error, returning only the matches gathered before it. -/
theorem decode_failure_asymmetry {D V : Type} (dec : V → Option D)
    (b : Bucket V) (kbad : Key) (keys : List Key)
    (filter : D → Bool) (s : Int) (entries : Bucket V)
    (good : List (Key × V)) (bad : Key × V) (rest : List (Key × V)) :
    ((bget b kbad).bind dec = none →
      queryKeysGo dec (some b) keys = queryKeysGo dec (some (bdelete b kbad)) keys) ∧
    (0 ≤ s → entries.reverse.drop s.toNat = good ++ bad :: rest →
      decodesAll dec good → dec bad.2 = none →
      queryFind dec ⟨filter, s, 0⟩ (some entries) =
        (matchesOf dec filter good, s + (good.length : Int) + 1,
         some BErr.decodeFailed)) := by
  constructor
  · intro h
    simp only [queryKeysGo]
    refine List.filterMap_congr ?_
    intro x _
    by_cases hx : x = kbad
    · subst hx
      rw [h, bget_bdelete, if_pos rfl]
      rfl
    · rw [bget_bdelete, if_neg hx]
  · intro hs hsplit hgood hbad
    have hlt : s.toNat < entries.reverse.length := by
      by_contra hge
      have : entries.reverse.drop s.toNat = [] := List.drop_eq_nil_of_le (by omega)
      rw [hsplit] at this
      simp at this
    have hwrap : queryFind dec ⟨filter, s, 0⟩ (some entries) =
        ((scanLoop dec ⟨filter, s, 0⟩ 0 0 entries.reverse).1,
         (scanLoop dec ⟨filter, s, 0⟩ 0 0 entries.reverse).2.1,
         if (scanLoop dec ⟨filter, s, 0⟩ 0 0 entries.reverse).2.2 = some BErr.stop
         then none
         else (scanLoop dec ⟨filter, s, 0⟩ 0 0 entries.reverse).2.2) := rfl
    rw [hwrap, scanLoop_skipPhase dec ⟨filter, s, 0⟩ entries.reverse 0 0 le_rfl]
    have hsk : ((⟨filter, s, 0⟩ : Query D).skip - 0).toNat = s.toNat := by
      simp only
      omega
    rw [hsk]
    have hmin : min s.toNat entries.reverse.length = s.toNat := by omega
    rw [hmin, hsplit]
    rw [scanLoop_decode_abort dec ⟨filter, s, 0⟩ (by simp) good bad rest 0
      (0 + (s.toNat : Int)) (by simp) hgood hbad]
    refine Prod.ext rfl (Prod.ext ?_ ?_)
    · show 0 + (s.toNat : Int) + (good.length : Int) + 1 = s + (good.length : Int) + 1
      omega
    · rfl

/-- Witness for C4: in a bucket where the value under key `[1]` fails
to decode, the key lookup equals the lookup with that key deleted,
while a full scan aborts with the decode error after returning the one
good match. -/
theorem decode_failure_asymmetry_witness :
    (queryKeysGo decPos (some [([1], 0), ([2], 5)]) [[1], [2]] =
      queryKeysGo decPos (some (bdelete [([1], 0), ([2], 5)] [1])) [[1], [2]]) ∧
    (queryFind decPos ⟨fun _ => true, 0, 0⟩ (some [([1], 0), ([2], 5)]) =
      (matchesOf decPos (fun _ => true) [([2], 5)],
       0 + ((([([2], 5)] : Bucket Nat).length : Nat) : Int) + 1,
       some BErr.decodeFailed)) :=
  ⟨(decode_failure_asymmetry decPos [([1], 0), ([2], 5)] [1] [[1], [2]]
      (fun _ => true) 0 [([1], 0), ([2], 5)] [([2], 5)] ([1], 0) []).1 (by decide),
   (decode_failure_asymmetry decPos [([1], 0), ([2], 5)] [1] [[1], [2]]
      (fun _ => true) 0 [([1], 0), ([2], 5)] [([2], 5)] ([1], 0) []).2 (by decide)
      (by decide) (by decide) (by decide)⟩

/-- A lifecycle hook `func(doc *T) error`: it may mutate the document
through the pointer (the returned document) and may fail. -/
abbrev Hook (D : Type) := D → Except BErr D

/-- Run an optionally registered hook (`if c.hook != nil`). -/
def runHook {D : Type} (h : Option (Hook D)) (doc : D) : Except BErr D :=
  match h with
  | none => Except.ok doc
  | some f => f doc

/-- The collection (collection.go): the six optional hooks, the
document-identity, codec, validator and id-generation collaborators.
The driver's store is passed to each operation explicitly. -/
structure Coll (D V : Type) where
  keyOf : D → Key
  marshal : D → Except BErr V
  unmarshal : V → Option D
  validate : D → Option BErr
  beforeInsert : Option (Hook D) := none
  afterInsert : Option (Hook D) := none
  beforeUpdate : Option (Hook D) := none
  afterUpdate : Option (Hook D) := none
  beforeDelete : Option (Hook D) := none
  afterDelete : Option (Hook D) := none
  snowflake : Key := [1]
  setId : D → Key → D := fun d _ => d
  onNewId : Option (Nat → D → Key) := none

/-- The Insert options (collection.go:72-83). -/
structure InsertOptions where
  ignoreErrors : Bool := false
  upsert : Bool := false

/-- `FindByBytesKey` (collection.go:302-310): a single-key lookup;
an empty result (absent bucket, absent key or undecodable value)
becomes `documentNotFound`. -/
def findByBytesKey {D V : Type} (c : Coll D V) (db : Option (Bucket V))
    (k : Key) : Except BErr D :=
  match queryKeysGo c.unmarshal db [k] with
  | [] => Except.error BErr.documentNotFound
  | d :: _ => Except.ok d

/-- `FindByKey` (collection.go:336-344), identical to `FindByBytesKey`
after the string key is converted to bytes. -/
def findByKey {D V : Type} (c : Coll D V) (db : Option (Bucket V))
    (k : Key) : Except BErr D :=
  match queryKeysGo c.unmarshal db [k] with
  | [] => Except.error BErr.documentNotFound
  | d :: _ => Except.ok d

/-- `FindByKeys` (collection.go:357-363): multi-key lookup, absent keys
skipped, no error reported. -/
def findByKeys {D V : Type} (c : Coll D V) (db : Option (Bucket V))
    (ks : List Key) : List D :=
  queryKeysGo c.unmarshal db ks

/-- `getKey` (collection.go:173-194): an empty document key triggers id
generation (snowflake, or `OnNewId` with the bucket cardinality) and the
generated id is written back into the document's identity field. -/
def getKey {D V : Type} (c : Coll D V) (bucketSize : Nat) (doc : D) : Key × D :=
  let key := c.keyOf doc
  if key.length = 0 then
    let idBytes :=
      match c.onNewId with
      | some f => f bucketSize doc
      | none => c.snowflake
    (idBytes, c.setId doc idBytes)
  else (key, doc)

/-- `insertWithTx` (collection.go:129-169): existence probe through the
decode-lenient `FindByBytesKey` against the committed snapshot (unless
upsert), validation, beforeInsert hook, key resolution, encoding, the
`Put`, then the afterInsert hook; the hook's error is returned after the
`Put` has already been applied to the transaction's bucket. -/
def insertWithTx {D V : Type} (c : Coll D V) (snapshot : Option (Bucket V))
    (b : Bucket V) (doc : D) (opt : InsertOptions) :
    Option Key × Bucket V × Option BErr :=
  if ¬ opt.upsert ∧ (findByBytesKey c snapshot (c.keyOf doc)).isOk then
    (none, b, some BErr.documentExists)
  else
    match c.validate doc with
    | some e => (none, b, some e)
    | none =>
      match runHook c.beforeInsert doc with
      | Except.error e => (none, b, some e)
      | Except.ok doc₁ =>
        let idDoc := getKey c b.length doc₁
        match c.marshal idDoc.2 with
        | Except.error e => (none, b, some e)
        | Except.ok v =>
          match runHook c.afterInsert idDoc.2 with
          | Except.error e => (none, bput b idDoc.1 v, some e)
          | Except.ok _ => (some idDoc.1, bput b idDoc.1 v, none)

/-- The document loop of `inserts` (collection.go:116-122): without the
ignore-errors option the first per-document error aborts the closure;
with it, the (possibly nil) id is recorded and the error dropped. -/
def insertsLoop {D V : Type} (c : Coll D V) (snapshot : Option (Bucket V))
    (opt : InsertOptions) :
    Bucket V → List D → List (Option Key) × Bucket V × Option BErr
  | b, [] => ([], b, none)
  | b, d :: rest =>
    let r := insertWithTx c snapshot b d opt
    if ¬ opt.ignoreErrors ∧ r.2.2.isSome then ([], r.2.1, r.2.2)
    else
      let rr := insertsLoop c snapshot opt r.2.1 rest
      (r.1 :: rr.1, rr.2)

/-- `inserts` (collection.go:103-127): one write transaction around the
whole batch (`CreateBucketIfNotExists`, then the loop); an error from
the closure rolls the store back to its pre-call state, otherwise the
final bucket is committed. -/
def inserts {D V : Type} (c : Coll D V) (db : Option (Bucket V))
    (docs : List D) (opt : InsertOptions) :
    List (Option Key) × Option (Bucket V) × Option BErr :=
  let r := insertsLoop c db opt (db.getD []) docs
  match r.2.2 with
  | some e => (r.1, db, some e)
  | none => (r.1, some r.2.1, none)

/-- `Insert` (collection.go:85-96): a one-document batch. -/
def insert {D V : Type} (c : Coll D V) (db : Option (Bucket V)) (doc : D)
    (opt : InsertOptions) : Option Key × Option (Bucket V) × Option BErr :=
  let r := inserts c db [doc] opt
  match r.2.2 with
  | some e => (none, r.2.1, some e)
  | none =>
    match r.1 with
    | [] => (none, r.2.1, none)
    | id :: _ => (id, r.2.1, none)

/-- `UpdateOne` (collection.go:457-488): beforeUpdate hook, encode,
`Put` under the (possibly hook-mutated) document key inside a write
transaction, then the afterUpdate hook outside it, whose error is
surfaced although the put is already committed. -/
def updateOne {D V : Type} (c : Coll D V) (db : Option (Bucket V))
    (doc : D) : Option (Bucket V) × Option BErr :=
  match runHook c.beforeUpdate doc with
  | Except.error e => (db, some e)
  | Except.ok doc₁ =>
    match c.marshal doc₁ with
    | Except.error e => (db, some e)
    | Except.ok v =>
      match db with
      | none => (none, some BErr.bucketNotFound)
      | some b =>
        match runHook c.afterUpdate doc₁ with
        | Except.error e => (some (bput b (c.keyOf doc₁) v), some e)
        | Except.ok _ => (some (bput b (c.keyOf doc₁) v), none)

/-- `DeleteOne` (collection.go:491-517): beforeDelete hook, `Delete`
inside a write transaction, then the afterDelete hook outside it. -/
def deleteOne {D V : Type} (c : Coll D V) (db : Option (Bucket V))
    (doc : D) : Option (Bucket V) × Option BErr :=
  match runHook c.beforeDelete doc with
  | Except.error e => (db, some e)
  | Except.ok doc₁ =>
    match db with
    | none => (none, some BErr.bucketNotFound)
    | some b =>
      match runHook c.afterDelete doc₁ with
      | Except.error e => (some (bdelete b (c.keyOf doc₁)), some e)
      | Except.ok _ => (some (bdelete b (c.keyOf doc₁)), none)

/-- `QueryResult` (query.go:124-136): the in-memory result cursor.
The `Collection` back-reference is passed explicitly to the operations
that need it. -/
structure QueryResultM (D : Type) where
  items : List D
  last : Int := 0
  error : Option BErr := none
deriving DecidableEq, Repr

/-- The iteration of `ForEach` (query.go:177-183): the function may
mutate each visited document in place; its first error stops the
iteration. -/
def forEachGo {D : Type} (f : D → D × Option BErr) :
    List D → List D × Option BErr
  | [] => ([], none)
  | d :: rest =>
    let r := f d
    match r.2 with
    | some e => (r.1 :: rest, some e)
    | none =>
      let rr := forEachGo f rest
      (r.1 :: rr.1, rr.2)

/-- `QueryResult.ForEach` (query.go:173-185). -/
def qrForEach {D : Type} (qr : QueryResultM D) (f : D → D × Option BErr) :
    QueryResultM D :=
  match qr.error with
  | some _ => qr
  | none =>
    let r := forEachGo f qr.items
    { qr with items := r.1, error := r.2 }

/-- `QueryResult.Filter` (query.go:188-200). -/
def qrFilter {D : Type} (qr : QueryResultM D) (f : D → Bool) :
    QueryResultM D :=
  match qr.error with
  | some _ => qr
  | none => { qr with items := qr.items.filter f }

/-- `QueryResult.Validate` (query.go:203-212). -/
def qrValidate {D : Type} (qr : QueryResultM D)
    (f : QueryResultM D → Option BErr) : QueryResultM D :=
  match qr.error with
  | some _ => qr
  | none =>
    match f qr with
    | some e => { qr with error := some e }
    | none => qr

/-- `QueryResult.First` (query.go:159-165): Go returns `*T`; `none`
models a nil pointer, `some` a non-nil one; an empty result yields a
pointer to a freshly allocated zero value, `new(T)`. -/
def qrFirst {D : Type} [Inhabited D] (qr : QueryResultM D) : Option D :=
  if qr.items.length = 0 then some default else qr.items.head?

/-- The per-item body of `QueryResult.Delete` (query.go:225-244). -/
def qrDeleteLoop {D V : Type} (c : Coll D V) :
    Bucket V → List D → Except BErr (Bucket V)
  | b, [] => Except.ok b
  | b, d :: rest =>
    match runHook c.beforeDelete d with
    | Except.error e => Except.error e
    | Except.ok d₁ =>
      let b' := bdelete b (c.keyOf d₁)
      match runHook c.afterDelete d₁ with
      | Except.error e => Except.error e
      | Except.ok _ => qrDeleteLoop c b' rest

/-- `QueryResult.Delete` (query.go:215-247): a stored error short-
circuits before the write transaction; a missing bucket or any hook or
storage error aborts and rolls back the whole transaction. -/
def qrDelete {D V : Type} (c : Coll D V) (qr : QueryResultM D)
    (db : Option (Bucket V)) : Option (Bucket V) × Option BErr :=
  match qr.error with
  | some e => (db, some e)
  | none =>
    match db with
    | none => (db, some BErr.bucketNotFound)
    | some b =>
      match qrDeleteLoop c b qr.items with
      | Except.error e => (db, some e)
      | Except.ok b' => (some b', none)

/-- The per-item body of `QueryResult.Update` (query.go:260-284). -/
def qrUpdateLoop {D V : Type} (c : Coll D V) :
    Bucket V → List D → Except BErr (Bucket V)
  | b, [] => Except.ok b
  | b, d :: rest =>
    match runHook c.beforeUpdate d with
    | Except.error e => Except.error e
    | Except.ok d₁ =>
      match c.marshal d₁ with
      | Except.error e => Except.error e
      | Except.ok v =>
        let b' := bput b (c.keyOf d₁) v
        match runHook c.afterUpdate d₁ with
        | Except.error e => Except.error e
        | Except.ok _ => qrUpdateLoop c b' rest

/-- `QueryResult.Update` (query.go:250-287). -/
def qrUpdate {D V : Type} (c : Coll D V) (qr : QueryResultM D)
    (db : Option (Bucket V)) : Option (Bucket V) × Option BErr :=
  match qr.error with
  | some e => (db, some e)
  | none =>
    match db with
    | none => (db, some BErr.bucketNotFound)
    | some b =>
      match qrUpdateLoop c b qr.items with
      | Except.error e => (db, some e)
      | Except.ok b' => (some b', none)

/-- C5: once a QueryResult carries an error, every chained operation is
a no-op that propagates that same error: ForEach, Filter and Validate
return the receiver unchanged whatever function is supplied (so the
function is never invoked and Items are untouched), and Delete and
Update return the stored error and leave the store unchanged (no write
transaction effect). -/
theorem queryResult_error_short_circuit {D V : Type} (qr : QueryResultM D)
    (e : BErr) (h : qr.error = some e) :
    (∀ f, qrForEach qr f = qr) ∧
    (∀ p, qrFilter qr p = qr) ∧
    (∀ g, qrValidate qr g = qr) ∧
    (∀ (c : Coll D V) (db : Option (Bucket V)), qrDelete c qr db = (db, some e)) ∧
    (∀ (c : Coll D V) (db : Option (Bucket V)), qrUpdate c qr db = (db, some e)) := by
  refine ⟨?_, ?_, ?_, ?_, ?_⟩
  · intro f
    simp [qrForEach, h]
  · intro p
    simp [qrFilter, h]
  · intro g
    simp [qrValidate, h]
  · intro c db
    simp [qrDelete, h]
  · intro c db
    simp [qrUpdate, h]

/-- Concrete collection for witnesses: identity-style collaborators. -/
def collW : Coll Nat Nat :=
  { keyOf := fun d => [d]
    marshal := fun d => Except.ok d
    unmarshal := fun v => some v
    validate := fun _ => none }

/-- Witness for C5 on a concrete errored QueryResult. -/
theorem queryResult_error_short_circuit_witness :
    (qrForEach (⟨[3], 5, some (BErr.hookFailed 0)⟩ : QueryResultM Nat)
      (fun d => (d + 1, none)) = ⟨[3], 5, some (BErr.hookFailed 0)⟩) ∧
    (qrFilter (⟨[3], 5, some (BErr.hookFailed 0)⟩ : QueryResultM Nat)
      (fun _ => false) = ⟨[3], 5, some (BErr.hookFailed 0)⟩) ∧
    (qrValidate (⟨[3], 5, some (BErr.hookFailed 0)⟩ : QueryResultM Nat)
      (fun _ => some BErr.stop) = ⟨[3], 5, some (BErr.hookFailed 0)⟩) ∧
    (qrDelete collW (⟨[3], 5, some (BErr.hookFailed 0)⟩ : QueryResultM Nat)
      (some [([1], 2)]) = (some [([1], 2)], some (BErr.hookFailed 0))) ∧
    (qrUpdate collW (⟨[3], 5, some (BErr.hookFailed 0)⟩ : QueryResultM Nat)
      (some [([1], 2)]) = (some [([1], 2)], some (BErr.hookFailed 0))) :=
  ⟨(queryResult_error_short_circuit (V := Nat) ⟨[3], 5, some (BErr.hookFailed 0)⟩
      (BErr.hookFailed 0) rfl).1 _,
   (queryResult_error_short_circuit (V := Nat) ⟨[3], 5, some (BErr.hookFailed 0)⟩
      (BErr.hookFailed 0) rfl).2.1 _,
   (queryResult_error_short_circuit (V := Nat) ⟨[3], 5, some (BErr.hookFailed 0)⟩
      (BErr.hookFailed 0) rfl).2.2.1 _,
   (queryResult_error_short_circuit ⟨[3], 5, some (BErr.hookFailed 0)⟩
      (BErr.hookFailed 0) rfl).2.2.2.1 collW (some [([1], 2)]),
   (queryResult_error_short_circuit ⟨[3], 5, some (BErr.hookFailed 0)⟩
      (BErr.hookFailed 0) rfl).2.2.2.2 collW (some [([1], 2)])⟩

/-- C10: on a QueryResult with empty Items, First returns a non-nil
pointer to a freshly allocated zero-valued document - never a nil
pointer - and is therefore indistinguishable from the First of a result
holding one stored zero-valued document. -/
theorem queryResult_first_nonnil {D : Type} [Inhabited D]
    (qr : QueryResultM D) (h : qr.items = []) :
    qrFirst qr = some (default : D) ∧
    qrFirst qr ≠ none ∧
    qrFirst qr = qrFirst ⟨[(default : D)], qr.last, qr.error⟩ := by
  refine ⟨?_, ?_, ?_⟩ <;> simp [qrFirst, h]

/-- Witness for C10 at a concrete empty result over Nat documents. -/
theorem queryResult_first_nonnil_witness :
    qrFirst (⟨[], 0, none⟩ : QueryResultM Nat) = some (default : Nat) ∧
    qrFirst (⟨[], 0, none⟩ : QueryResultM Nat) ≠ none ∧
    qrFirst (⟨[], 0, none⟩ : QueryResultM Nat) =
      qrFirst (⟨[(default : Nat)], (⟨[], 0, none⟩ : QueryResultM Nat).last,
        (⟨[], 0, none⟩ : QueryResultM Nat).error⟩ : QueryResultM Nat) :=
  queryResult_first_nonnil ⟨[], 0, none⟩ rfl

/-- The error component an operation reports for a hook outcome. -/
def hookErr {D : Type} (r : Except BErr D) : Option BErr :=
  match r with
  | Except.error e => some e
  | Except.ok _ => none

/-- C6: hook interception in the mutation pipeline, for insert
(`insertWithTx`), update (`UpdateOne`) and delete (`DeleteOne`).  For
each operation: a failing before-hook makes the operation return that
error with the storage untouched and whatever after-hook is registered
never consulted; on the success path the storage mutation applies to
the before-hook-processed document (the hook ran first) and the
after-hook's outcome decides the returned error only after the mutation
has been applied. -/
theorem mutation_hook_ordering {D V : Type} (c : Coll D V)
    (snap db : Option (Bucket V)) (b : Bucket V) (doc doc₁ doc₂ : D)
    (id : Key) (v : V) (e : BErr) (opt : InsertOptions) :
    ((opt.upsert = true ∨ (findByBytesKey c snap (c.keyOf doc)).isOk = false) →
      c.validate doc = none →
      runHook c.beforeInsert doc = Except.error e →
      ∀ g, insertWithTx { c with afterInsert := g } snap b doc opt =
        (none, b, some e)) ∧
    ((opt.upsert = true ∨ (findByBytesKey c snap (c.keyOf doc)).isOk = false) →
      c.validate doc = none →
      runHook c.beforeInsert doc = Except.ok doc₁ →
      getKey c b.length doc₁ = (id, doc₂) →
      c.marshal doc₂ = Except.ok v →
      insertWithTx c snap b doc opt =
        ((if (runHook c.afterInsert doc₂).isOk then some id else none),
         bput b id v, hookErr (runHook c.afterInsert doc₂))) ∧
    (runHook c.beforeUpdate doc = Except.error e →
      ∀ g, updateOne { c with afterUpdate := g } db doc = (db, some e)) ∧
    (runHook c.beforeUpdate doc = Except.ok doc₁ →
      c.marshal doc₁ = Except.ok v →
      updateOne c (some b) doc =
        (some (bput b (c.keyOf doc₁) v), hookErr (runHook c.afterUpdate doc₁))) ∧
    (runHook c.beforeDelete doc = Except.error e →
      ∀ g, deleteOne { c with afterDelete := g } db doc = (db, some e)) ∧
    (runHook c.beforeDelete doc = Except.ok doc₁ →
      deleteOne c (some b) doc =
        (some (bdelete b (c.keyOf doc₁)), hookErr (runHook c.afterDelete doc₁))) := by
  refine ⟨?_, ?_, ?_, ?_, ?_, ?_⟩
  · intro hx hv hb g
    have hpr : opt.upsert = true ∨
        (findByBytesKey { c with afterInsert := g } snap (c.keyOf doc)).isOk = false :=
      hx
    rcases hpr with hup | hpr
    · simp [insertWithTx, hup, hv, hb]
    · simp [insertWithTx, hpr, hv, hb]
  · intro hx hv hb hg hm
    rcases hx with hup | hpr
    · cases ha : runHook c.afterInsert doc₂ <;>
        simp [insertWithTx, hup, hv, hb, hg, hm, ha, hookErr, Except.isOk, Except.toBool]
    · cases hfb : findByBytesKey c snap (c.keyOf doc) with
      | ok dd =>
        rw [hfb] at hpr
        simp [Except.isOk, Except.toBool] at hpr
      | error ee =>
        cases ha : runHook c.afterInsert doc₂ <;>
          simp [insertWithTx, hfb, hv, hb, hg, hm, ha, hookErr, Except.isOk,
            Except.toBool]
  · intro hb g
    simp [updateOne, hb]
  · intro hb hm
    cases ha : runHook c.afterUpdate doc₁ <;>
      simp [updateOne, hb, hm, ha, hookErr]
  · intro hb g
    simp [deleteOne, hb]
  · intro hb
    cases ha : runHook c.afterDelete doc₁ <;>
      simp [deleteOne, hb, ha, hookErr]

/-- Witness collection whose beforeInsert hook fails. -/
def collBI : Coll Nat Nat :=
  { collW with beforeInsert := some (fun _ => Except.error (BErr.hookFailed 1)) }

/-- Witness collection whose beforeUpdate hook fails. -/
def collBU : Coll Nat Nat :=
  { collW with beforeUpdate := some (fun _ => Except.error (BErr.hookFailed 2)) }

/-- Witness collection whose beforeDelete hook fails. -/
def collBD : Coll Nat Nat :=
  { collW with beforeDelete := some (fun _ => Except.error (BErr.hookFailed 3)) }

/-- Witness for C6: concrete runs of all six scenarios. -/
theorem mutation_hook_ordering_witness :
    (insertWithTx { collBI with afterInsert := none } none [] 5
      { : InsertOptions } = (none, [], some (BErr.hookFailed 1))) ∧
    (insertWithTx collW none [] 5 { : InsertOptions } =
      ((if (runHook collW.afterInsert 5).isOk then some [5] else none),
       bput [] [5] 5, hookErr (runHook collW.afterInsert 5))) ∧
    (updateOne { collBU with afterUpdate := none } (some [([2], 9)]) 3 =
      (some [([2], 9)], some (BErr.hookFailed 2))) ∧
    (updateOne collW (some [([2], 9)]) 3 =
      (some (bput [([2], 9)] (collW.keyOf 3) 3),
       hookErr (runHook collW.afterUpdate 3))) ∧
    (deleteOne { collBD with afterDelete := none } (some [([2], 9)]) 2 =
      (some [([2], 9)], some (BErr.hookFailed 3))) ∧
    (deleteOne collW (some [([2], 9)]) 2 =
      (some (bdelete [([2], 9)] (collW.keyOf 2)),
       hookErr (runHook collW.afterDelete 2))) :=
  ⟨(mutation_hook_ordering collBI none none [] 5 5 5 [5] 5 (BErr.hookFailed 1)
      { : InsertOptions }).1 (Or.inr rfl) rfl rfl none,
   (mutation_hook_ordering collW none none [] 5 5 5 [5] 5 (BErr.hookFailed 1)
      { : InsertOptions }).2.1 (Or.inr rfl) rfl rfl rfl rfl,
   (mutation_hook_ordering collBU none (some [([2], 9)]) [] 3 3 3 [3] 3
      (BErr.hookFailed 2) { : InsertOptions }).2.2.1 rfl none,
   (mutation_hook_ordering collW none (some [([2], 9)]) [([2], 9)] 3 3 3 [3] 3
      (BErr.hookFailed 2) { : InsertOptions }).2.2.2.1 rfl rfl,
   (mutation_hook_ordering collBD none (some [([2], 9)]) [] 2 2 2 [2] 2
      (BErr.hookFailed 3) { : InsertOptions }).2.2.2.2.1 rfl none,
   (mutation_hook_ordering collW none (some [([2], 9)]) [([2], 9)] 2 2 2 [2] 2
      (BErr.hookFailed 3) { : InsertOptions }).2.2.2.2.2 rfl⟩

/-- C9: against a missing bucket, the key-lookup path discards the
bucket-not-found error raised inside the read transaction: `queryKeys`
returns an empty list, so `FindByKey` and `FindByBytesKey` report
`documentNotFound` and `FindByKeys` returns an empty list with no
error; a predicate scan instead surfaces the missing bucket. -/
theorem missing_bucket_lookup_leniency {D V : Type} (c : Coll D V)
    (k : Key) (ks : List Key) (q : Query D) :
    queryKeysGo c.unmarshal (none : Option (Bucket V)) ks = [] ∧
    findByKey c none k = Except.error BErr.documentNotFound ∧
    findByBytesKey c none k = Except.error BErr.documentNotFound ∧
    findByKeys c none ks = [] ∧
    (queryFind c.unmarshal q (none : Option (Bucket V))).2.2 =
      some BErr.bucketNotFound :=
  ⟨rfl, rfl, rfl, rfl, rfl⟩

theorem bget_bput_self {V : Type} (b : Bucket V) (k : Key) (v : V) :
    bget (bput b k v) k = some v := by
  induction b with
  | nil => simp [bput, bget]
  | cons kv rest ih =>
    obtain ⟨a, w⟩ := kv
    by_cases hka : k = a
    · simp [bput, hka, bget]
    · by_cases hlt : keyLt k a
      · simp [bput, hka, hlt, bget]
      · simp [bput, hka, hlt, bget, ih]

/-- Witness collection whose decoder rejects the stored value 0,
mapping every document to the fixed key `[1]`. -/
def collCorrupt : Coll Nat Nat :=
  { keyOf := fun _ => [1]
    marshal := fun d => Except.ok d
    unmarshal := fun v => if v = 0 then none else some v
    validate := fun _ => none }

/-- Counterexample to C7 as stated: the key `[1]` exists in the bucket
(bound to the stored value 0), yet Insert without Upsert does not fail
with documentExists - the existence probe goes through the
decode-lenient key lookup, the undecodable stored value reads as
absent, and the insert overwrites it. -/
theorem insert_existing_key_counterexample :
    (bget [([1], 0)] (collCorrupt.keyOf 7) = some 0) ∧
    (insert collCorrupt (some [([1], 0)]) 7 { : InsertOptions }).2.2 ≠
      some BErr.documentExists ∧
    bget ((insert collCorrupt (some [([1], 0)]) 7
      { : InsertOptions }).2.1.getD []) [1] = some 7 := by
  refine ⟨rfl, ?_, rfl⟩
  decide

/-- C7 (amended): for a document whose key already exists in the bucket
with a stored value that decodes successfully (and a non-empty key, as
the store guarantees), Insert without Upsert fails with documentExists
and leaves the store unchanged; Insert with Upsert - when validation,
hooks and encoding succeed - succeeds and afterwards the value stored
under the key is the encoding of the newly supplied document. -/
theorem insert_existing_key_semantics {D V : Type} (c : Coll D V)
    (b : Bucket V) (doc : D) (v₀ v₁ : V)
    (hk : c.keyOf doc ≠ [])
    (hget : bget b (c.keyOf doc) = some v₀)
    (hdec : (c.unmarshal v₀).isSome) :
    (insert c (some b) doc { : InsertOptions } =
      (none, some b, some BErr.documentExists)) ∧
    (c.validate doc = none →
      runHook c.beforeInsert doc = Except.ok doc →
      runHook c.afterInsert doc = Except.ok doc →
      c.marshal doc = Except.ok v₁ →
      insert c (some b) doc { upsert := true } =
        (some (c.keyOf doc), some (bput b (c.keyOf doc) v₁), none) ∧
      bget (bput b (c.keyOf doc) v₁) (c.keyOf doc) = some v₁) := by
  obtain ⟨d, hd⟩ := Option.isSome_iff_exists.mp hdec
  have hprobe : findByBytesKey c (some b) (c.keyOf doc) = Except.ok d := by
    simp [findByBytesKey, queryKeysGo, hget, hd]
  constructor
  · simp [insert, inserts, insertsLoop, insertWithTx, hprobe, Except.isOk,
      Except.toBool]
  · intro hv hbi hai hm
    have hklen : ¬ ((c.keyOf doc).length = 0) := by
      intro h
      exact hk (List.length_eq_zero.mp h)
    refine ⟨?_, bget_bput_self b (c.keyOf doc) v₁⟩
    simp [insert, inserts, insertsLoop, insertWithTx, hv, hbi, hai, hm,
      getKey, hklen]

/-- Witness for the amended C7 at a concrete bucket: key `[2]` exists
with decodable value 9; default insert fails with documentExists and
leaves the store alone, upsert replaces the stored value with the new
encoding. -/
theorem insert_existing_key_semantics_witness :
    (insert collW (some [([2], 9)]) 2 { : InsertOptions } =
      (none, some [([2], 9)], some BErr.documentExists)) ∧
    (insert collW (some [([2], 9)]) 2 { upsert := true } =
      (some (collW.keyOf 2), some (bput [([2], 9)] (collW.keyOf 2) 2), none) ∧
      bget (bput [([2], 9)] (collW.keyOf 2) 2) (collW.keyOf 2) = some 2) :=
  ⟨(insert_existing_key_semantics collW [([2], 9)] 2 9 2 (by decide) rfl
      (by decide)).1,
   (insert_existing_key_semantics collW [([2], 9)] 2 9 2 (by decide) rfl
      (by decide)).2 rfl rfl rfl rfl⟩

theorem insertsLoop_ignore_no_error {D V : Type} (c : Coll D V)
    (snap : Option (Bucket V)) (opt : InsertOptions)
    (hig : opt.ignoreErrors = true) :
    ∀ (docs : List D) (b : Bucket V),
      (insertsLoop c snap opt b docs).2.2 = none := by
  intro docs
  induction docs with
  | nil => intro b; rfl
  | cons d rest ih =>
    intro b
    simp [insertsLoop, hig, ih]

theorem insertsLoop_append_of_ok {D V : Type} (c : Coll D V)
    (snap : Option (Bucket V)) (opt : InsertOptions) :
    ∀ (l₁ : List D) (l₂ : List D) (b : Bucket V),
      (insertsLoop c snap opt b l₁).2.2 = none →
      insertsLoop c snap opt b (l₁ ++ l₂) =
        ((insertsLoop c snap opt b l₁).1 ++
          (insertsLoop c snap opt (insertsLoop c snap opt b l₁).2.1 l₂).1,
         (insertsLoop c snap opt (insertsLoop c snap opt b l₁).2.1 l₂).2) := by
  intro l₁
  induction l₁ with
  | nil =>
    intro l₂ b _
    simp [insertsLoop]
  | cons d rest ih =>
    intro l₂ b h
    by_cases habort : ¬ opt.ignoreErrors ∧ (insertWithTx c snap b d opt).2.2.isSome
    · exfalso
      simp only [insertsLoop] at h
      rw [if_pos habort] at h
      obtain ⟨_, hsome⟩ := habort
      rw [h] at hsome
      simp at hsome
    · have h' : (insertsLoop c snap opt (insertWithTx c snap b d opt).2.1 rest).2.2 =
          none := by
        simp only [insertsLoop] at h
        rw [if_neg habort] at h
        exact h
      simp only [List.cons_append, insertsLoop, List.append_eq]
      rw [if_neg habort, if_neg habort]
      rw [ih l₂ (insertWithTx c snap b d opt).2.1 h']
      simp

/-- C8: batch insert atomicity.  Without the ignore-errors option the
batch is all-or-nothing: any reported error means the store equals its
pre-call state, and a failing document aborts the whole call with that
document's error, reporting only the ids recorded before it and rolling
every prior write back.  With ignore-errors the call never reports an
error, and a failing document does not roll back documents already
written in the same call: the committed bucket is the one built through
the failing step, with the failure recorded as a nil id. -/
theorem insertMany_atomicity {D V : Type} (c : Coll D V)
    (db : Option (Bucket V)) (docs good : List D) (bad : D) (rest : List D)
    (opt : InsertOptions) (e : BErr) :
    (opt.ignoreErrors = false → (inserts c db docs opt).2.2.isSome →
      (inserts c db docs opt).2.1 = db) ∧
    (opt.ignoreErrors = false →
      (insertsLoop c db opt (db.getD []) good).2.2 = none →
      (insertWithTx c db (insertsLoop c db opt (db.getD []) good).2.1 bad opt).2.2 =
        some e →
      inserts c db (good ++ bad :: rest) opt =
        ((insertsLoop c db opt (db.getD []) good).1, db, some e)) ∧
    (opt.ignoreErrors = true → (inserts c db docs opt).2.2 = none) ∧
    (opt.ignoreErrors = true →
      (insertWithTx c db (insertsLoop c db opt (db.getD []) good).2.1 bad opt).2.2 =
        some e →
      inserts c db (good ++ [bad]) opt =
        ((insertsLoop c db opt (db.getD []) good).1 ++
          [(insertWithTx c db (insertsLoop c db opt (db.getD []) good).2.1 bad opt).1],
         some (insertWithTx c db
           (insertsLoop c db opt (db.getD []) good).2.1 bad opt).2.1,
         none)) := by
  refine ⟨?_, ?_, ?_, ?_⟩
  · intro hig hsome
    cases hE : (insertsLoop c db opt (db.getD []) docs).2.2 with
    | some ee => simp [inserts, hE]
    | none =>
      rw [inserts, hE] at hsome
      simp at hsome
  · intro hig hok hbad
    rw [inserts, insertsLoop_append_of_ok c db opt good (bad :: rest) _ hok]
    have habort : ¬ opt.ignoreErrors ∧
        (insertWithTx c db (insertsLoop c db opt (db.getD []) good).2.1 bad
          opt).2.2.isSome := by
      constructor
      · simp [hig]
      · rw [hbad]
        rfl
    simp only [insertsLoop]
    rw [if_pos habort, hbad]
    simp
  · intro hig
    rw [inserts, insertsLoop_ignore_no_error c db opt hig docs (db.getD [])]
  · intro hig hbad
    rw [inserts, insertsLoop_append_of_ok c db opt good [bad] _
      (insertsLoop_ignore_no_error c db opt hig good _)]
    have hnabort : ¬ (¬ opt.ignoreErrors ∧
        (insertWithTx c db (insertsLoop c db opt (db.getD []) good).2.1 bad
          opt).2.2.isSome) := by
      simp [hig]
    simp only [insertsLoop]
    rw [if_neg hnabort]

/-- Witness collection whose validator rejects the document 0. -/
def collVal : Coll Nat Nat :=
  { collW with validate := fun d => if d = 0 then some (BErr.validationFailed 9) else none }

/-- Witness for C8: a batch of the good document 4 and the invalid
document 0 against an absent bucket, in both error modes. -/
theorem insertMany_atomicity_witness :
    ((inserts collVal none [4, 0] { : InsertOptions }).2.1 =
      (none : Option (Bucket Nat))) ∧
    (inserts collVal none ([4] ++ 0 :: []) { : InsertOptions } =
      ((insertsLoop collVal none { : InsertOptions }
          ((none : Option (Bucket Nat)).getD []) [4]).1,
       none, some (BErr.validationFailed 9))) ∧
    ((inserts collVal none [4, 0] { ignoreErrors := true }).2.2 = none) ∧
    (inserts collVal none ([4] ++ [0]) { ignoreErrors := true } =
      ((insertsLoop collVal none { ignoreErrors := true }
          ((none : Option (Bucket Nat)).getD []) [4]).1 ++
        [(insertWithTx collVal none
            (insertsLoop collVal none { ignoreErrors := true }
              ((none : Option (Bucket Nat)).getD []) [4]).2.1 0
            { ignoreErrors := true }).1],
       some (insertWithTx collVal none
          (insertsLoop collVal none { ignoreErrors := true }
            ((none : Option (Bucket Nat)).getD []) [4]).2.1 0
          { ignoreErrors := true }).2.1,
       none)) :=
  ⟨(insertMany_atomicity collVal none [4, 0] [] 0 [] { : InsertOptions }
      (BErr.validationFailed 9)).1 rfl (by decide),
   (insertMany_atomicity collVal none [4, 0] [4] 0 [] { : InsertOptions }
      (BErr.validationFailed 9)).2.1 rfl (by decide) (by decide),
   (insertMany_atomicity collVal none [4, 0] [] 0 [] { ignoreErrors := true }
      (BErr.validationFailed 9)).2.2.1 rfl,
   (insertMany_atomicity collVal none [4, 0] [4] 0 [] { ignoreErrors := true }
      (BErr.validationFailed 9)).2.2.2 rfl (by decide)⟩

end Bingo
